import Mathlib

/-!
Verification of the coverage-markdown rendering core of `ci-pipelines`
(`.dagger/src/ci/coverage.py`, with `.dagger/src/ci/main.py` as the inline
pipeline entry point).

Modelling conventions:
* Python strings are Lean `String`s; the string primitives used by the code
  (`strip`, `lstrip`, `splitlines`, `find`, slicing, `replace`) are
  implemented on `List Char` and lifted.  Only the ASCII whitespace
  characters recognised by Python (`' '`, `'\t'`, `'\n'`, `'\r'`, `'\x0b'`,
  `'\x0c'`) are modelled; exotic Unicode whitespace and the extra Unicode
  line boundaries of `str.splitlines` are not used by the repository's data
  and are not modelled.
* `xml.etree.ElementTree` elements are modelled by the inductive `Element`
  (tag, attributes, children); `ET.fromstring` is an external library
  function and is passed in as an abstract parameter
  `fromstring : String → Option Element`, `none` meaning `ET.ParseError`.
* Python `float` arithmetic on coverage percentages is modelled by `ℚ`;
  `f"{x:.2f}"` formatting is modelled by exact round-half-to-even at two
  decimals.  Python `int(string)` is modelled by `pythonInt` (optional
  sign, decimal digits; underscore digit grouping is not modelled),
  returning `none` for `ValueError`.
* A raised Python exception is modelled by `none` in the `Option` monad;
  a Python `dict` is modelled by an association list where insertion
  overwrites in place and lookup takes the first (hence, for a key written
  twice, the most recently written) binding.
-/

attribute [local semireducible] Rat.mul Rat.sub Rat.add Rat.inv

set_option maxRecDepth 10000

/-! ### Python string primitives -/

/-- Python ASCII whitespace characters (the ones `str.strip()` removes). -/
def isPyWs (c : Char) : Bool :=
  c == ' ' || c == '\t' || c == '\n' || c == '\r' || c == '\x0b' || c == '\x0c'

/-- Characters stripped by `lstrip("./")`: the set `{'.', '/'}`. -/
def isDotSlash (c : Char) : Bool := c == '.' || c == '/'

/-- Strip characters satisfying `p` from the right end of a list. -/
def rstripW (p : Char → Bool) (l : List Char) : List Char :=
  (l.reverse.dropWhile p).reverse

/-- Python `str.strip()` on the character list. -/
def pyStripL (l : List Char) : List Char :=
  rstripW isPyWs (l.dropWhile isPyWs)

/-- Python `str.strip()`. -/
def pyStrip (s : String) : String := ⟨pyStripL s.data⟩

/-- Split a character list on newline characters (`str.split("\n")` shape):
always returns at least one (possibly empty) part. -/
def splitNl : List Char → List (List Char)
  | [] => [[]]
  | c :: rest =>
    if c = '\n' then [] :: splitNl rest
    else
      match splitNl rest with
      | p :: ps => (c :: p) :: ps
      | [] => [[c]]

/-- Python `str.splitlines()` for `\n`-separated text: splitting on `'\n'`
with no empty trailing part (`"" → []`, `"a\n" → ["a"]`, `"\n" → [""]`). -/
def splitlines (s : String) : List String :=
  match s.data with
  | [] => []
  | l =>
    let parts := (splitNl l).map (fun p => (⟨p⟩ : String))
    if parts.getLast? = some "" then parts.dropLast else parts

/-- Python `str.find`: index of the first occurrence of `m` in `n`,
`none` for `-1`. -/
def findSub : List Char → List Char → Option Nat
  | [], m => if m.isPrefixOf ([] : List Char) then some 0 else none
  | c :: t, m =>
    if m.isPrefixOf (c :: t) then some 0
    else (findSub t m).map (· + 1)

/-- Decidable occurrence test: `m` occurs as a contiguous substring of `n`. -/
def containsSub (m n : List Char) : Bool :=
  (List.range (n.length + 1)).any (fun j => m.isPrefixOf (n.drop j))

/-- Python string comparison (`sorted`, `list.sort`): lexicographic on code
points.  Defined structurally so that it evaluates by kernel reduction. -/
def lexLe : List Char → List Char → Bool
  | [], _ => true
  | _ :: _, [] => false
  | a :: as, b :: bs =>
    if a.toNat < b.toNat then true
    else if b.toNat < a.toNat then false
    else lexLe as bs

/-! ### XML element model -/

/-- Model of an `xml.etree.ElementTree.Element`: tag, attributes
(in document order; attribute names are unique), children. -/
inductive Element where
  | mk (tag : String) (attrs : List (String × String)) (children : List Element)

/-- Tag of an element. -/
def Element.tag : Element → String
  | .mk t _ _ => t

/-- Attribute list of an element. -/
def Element.attrs : Element → List (String × String)
  | .mk _ a _ => a

/-- Children of an element. -/
def Element.children : Element → List Element
  | .mk _ _ c => c

/-- `Element.get(name)`: the value of attribute `name`, or `None`. -/
def Element.get (e : Element) (name : String) : Option String :=
  (e.attrs.find? (fun p => p.1 == name)).map (·.2)

/-- `Element.findall(tag)`: the direct children with the given tag,
in document order. -/
def Element.findall (e : Element) (tag : String) : List Element :=
  e.children.filter (fun c => c.tag == tag)

/-! ### Python `int(...)` -/

/-- Value of a non-empty all-digit string, else `none`. -/
def digitsVal (l : List Char) : Option Nat :=
  if l = [] then none
  else if l.all (·.isDigit) then
    some (l.foldl (fun acc c => acc * 10 + (c.toNat - 48)) 0)
  else none

/-- Python `int(s)` for a string argument: surrounding whitespace allowed,
optional sign, decimal digits; `none` models `ValueError`. -/
def pythonInt (s : String) : Option Int :=
  match pyStripL s.data with
  | '+' :: rest => (digitsVal rest).map (fun n => (n : Int))
  | '-' :: rest => (digitsVal rest).map (fun n => -(n : Int))
  | rest => (digitsVal rest).map (fun n => (n : Int))

/-! ### `coverage.py`: LineCounts and counter extraction -/

/-- `LineCounts` dataclass (`coverage.py:9`). The fields are Python `int`s:
nothing in the code constrains them to be non-negative. -/
structure LineCounts where
  missed : Int
  covered : Int
deriving DecidableEq, Repr

/-- `LineCounts.total` (`coverage.py:15`). -/
def LineCounts.total (lc : LineCounts) : Int := lc.missed + lc.covered

/-- `LineCounts.pct` (`coverage.py:19`), float arithmetic modelled by `ℚ`:
`0.0 if self.total == 0 else self.covered * 100.0 / self.total`. -/
def LineCounts.pct (lc : LineCounts) : ℚ :=
  if lc.total = 0 then 0 else (lc.covered : ℚ) * 100 / (lc.total : ℚ)

/-- `int(counter.get(a) or 0)`: a missing attribute or empty value is `0`;
a non-empty value goes through Python `int` and may fail. -/
def attrIntOrZero (e : Element) (name : String) : Option Int :=
  match e.get name with
  | none => some 0
  | some v => if v = "" then some 0 else pythonInt v

/-- `line_counts(elem)` (`coverage.py:23`): the first `counter` child with
`type="LINE"` yields its parsed `missed`/`covered`; no such counter yields
`LineCounts(0, 0)`.  `none` models a raised `ValueError`. -/
def line_counts (e : Element) : Option LineCounts :=
  match (e.findall "counter").find? (fun c => c.get "type" == some "LINE") with
  | some counter =>
    match attrIntOrZero counter "missed", attrIntOrZero counter "covered" with
    | some m, some c => some { missed := m, covered := c }
    | _, _ => none
  | none => some { missed := 0, covered := 0 }

/-! ### `coverage.py`: file index -/

/-- A Python dict from file keys to counts, as an association list in
insertion order (first binding per key is the live one). -/
abbrev FileDict := List (String × LineCounts)

/-- `counters[key] = counts`: overwrite in place if the key is present,
else append. -/
def dictInsert (d : FileDict) (k : String) (v : LineCounts) : FileDict :=
  if d.any (fun p => p.1 == k) then
    d.map (fun p => if p.1 == k then (k, v) else p)
  else d ++ [(k, v)]

/-- `counters.get(key)`. -/
def dictGet (d : FileDict) (k : String) : Option LineCounts :=
  (d.find? (fun p => p.1 == k)).map (·.2)

/-- `f"{pkg_name}/{filename}" if pkg_name else filename` (`coverage.py:41`). -/
def fileKey (pkgName filename : String) : String :=
  if pkgName = "" then filename else pkgName ++ "/" ++ filename

/-- The `(key, counts)` pairs contributed by the `sourcefile` children of one
package, in document order, skipping empty/missing filenames
(`coverage.py:36`–`42`). -/
def entriesOfSourcefiles (pkgName : String) : List Element → Option (List (String × LineCounts))
  | [] => some []
  | sf :: rest =>
    let filename := (sf.get "name").getD ""
    if filename = "" then entriesOfSourcefiles pkgName rest
    else
      match line_counts sf, entriesOfSourcefiles pkgName rest with
      | some c, some es => some ((fileKey pkgName filename, c) :: es)
      | _, _ => none

/-- All `(key, counts)` pairs of a report in document order (packages in
order, sourcefiles in order within each package). -/
def rawFileEntries : List Element → Option (List (String × LineCounts))
  | [] => some []
  | pkg :: rest =>
    match entriesOfSourcefiles ((pkg.get "name").getD "") (pkg.findall "sourcefile"),
          rawFileEntries rest with
    | some es, some rest' => some (es ++ rest')
    | _, _ => none

/-- `file_line_counters(root)` (`coverage.py:32`): the dict built by writing
every `(key, counts)` pair in document order. -/
def file_line_counters (root : Element) : Option FileDict :=
  (rawFileEntries (root.findall "package")).map
    (fun es => es.foldl (fun d e => dictInsert d e.1 e.2) [])

/-! ### `coverage.py`: path mapper -/

/-- The fixed marker tuple (`coverage.py:51`). -/
def markers : List String :=
  ["src/main/java/", "src/main/kotlin/", "src/test/java/", "src/test/kotlin/"]

/-- The marker loop (`coverage.py:57`): for each marker in tuple order,
return the suffix after its first occurrence if it occurs at all. -/
def firstMarkerSuffix : List String → List Char → Option String
  | [], _ => none
  | m :: ms, n =>
    match findSub n m.data with
    | some i => some ⟨n.drop (i + m.data.length)⟩
    | none => firstMarkerSuffix ms n

/-- `path.strip().lstrip("./")` (`coverage.py:47`), as a character list. -/
def normalizedPath (path : String) : List Char :=
  (pyStripL path.data).dropWhile isDotSlash

/-- `changed_path_to_jacoco_key(path)` (`coverage.py:46`). -/
def changed_path_to_jacoco_key (path : String) : Option String :=
  let normalized := normalizedPath path
  if normalized = [] then none
  else firstMarkerSuffix markers normalized

/-! ### `coverage.py`: package rows -/

/-- A `(name, pct, covered, total)` package row. -/
abbrev PkgRow := String × ℚ × Int × Int

/-- `(pkg.get("name") or "").replace("/", ".")`. -/
def dotName (s : String) : String :=
  ⟨s.data.map (fun c => if c = '/' then '.' else c)⟩

/-- The package rows in document order before sorting (`coverage.py:66`–`72`):
packages with `total == 0` are skipped. -/
def packageRowsRaw : List Element → Option (List PkgRow)
  | [] => some []
  | pkg :: rest =>
    match line_counts pkg, packageRowsRaw rest with
    | some c, some rs =>
      if c.total = 0 then some rs
      else some ((dotName ((pkg.get "name").getD ""), c.pct, c.covered, c.total) :: rs)
    | _, _ => none

/-- Row comparison used by `packages.sort(key=lambda p: p[0])`. -/
def pkgRowLe (a b : PkgRow) : Prop := lexLe a.1.data b.1.data = true

instance : DecidableRel pkgRowLe :=
  fun a b => inferInstanceAs (Decidable (lexLe a.1.data b.1.data = true))

/-- `package_rows(root)` (`coverage.py:64`): rows sorted (stably) by name.
`List.insertionSort` with `≤` on the name is a stable sort and therefore
produces the same list as Python's stable `list.sort`. -/
def package_rows (root : Element) : Option (List PkgRow) :=
  (packageRowsRaw (root.findall "package")).map (List.insertionSort pkgRowLe)

/-! ### `coverage.py`: formatting and rendering -/

/-- Round a rational to the nearest integer, ties to even (the rounding of
Python's fixed-point float formatting). -/
def roundHalfEven (x : ℚ) : Int :=
  let f := x.floor
  let r := x - (f : ℚ)
  if r < 1 / 2 then f
  else if 1 / 2 < r then f + 1
  else if f % 2 = 0 then f else f + 1

/-- Two-decimal digits of `n < 100`. -/
def twoDigits (n : Nat) : String :=
  (if n < 10 then "0" else "") ++ toString n

/-- Fixed two-decimal rendering of a non-negative scaled value
(`n` hundredths). -/
def fmtAbs2 (n : Nat) : String :=
  toString (n / 100) ++ "." ++ twoDigits (n % 100)

/-- `f"{q:.2f}"`. -/
def fmtFixed2 (q : ℚ) : String :=
  let n := roundHalfEven (q * 100)
  if n < 0 then "-" ++ fmtAbs2 (-n).toNat else fmtAbs2 n.toNat

/-- `f"{q:+.2f}"`. -/
def fmtSigned2 (q : ℚ) : String :=
  let n := roundHalfEven (q * 100)
  if n < 0 then "-" ++ fmtAbs2 (-n).toNat else "+" ++ fmtAbs2 n.toNat

/-- `COVERAGE_COMMENT_MARKER` (`coverage.py:5`). -/
def COVERAGE_COMMENT_MARKER : String := "<!-- ci-pipelines:coverage-comment -->"

/-- `MAX_CHANGED_FILES_ROWS` (`coverage.py:6`). -/
def MAX_CHANGED_FILES_ROWS : Nat := 50

/-- `render_package_table(packages)` (`coverage.py:78`). -/
def render_package_table (packages : List PkgRow) : List String :=
  ["| Package | Line coverage |",
   "| ------- | ------------- |"] ++
  packages.map (fun r =>
    "| `" ++ r.1 ++ "` | " ++ fmtFixed2 r.2.1 ++ "% (" ++
      toString r.2.2.1 ++ "/" ++ toString r.2.2.2 ++ ") |")

/-- `_render_total_delta` (`coverage.py:88`): `(indicator, label)`. -/
def renderTotalDelta (total_pct base_total_pct : ℚ) : String × String :=
  let d := total_pct - base_total_pct
  (if 0 ≤ d then "🟢" else "🔴", fmtSigned2 d ++ "%")

/-- `_render_file_delta` (`coverage.py:95`). -/
def renderFileDelta (head_pct base_pct : ℚ) : String :=
  let d := head_pct - base_pct
  let ind := if 0 ≤ d then "🟢" else "🔴"
  fmtFixed2 head_pct ++ "% (" ++ ind ++ " " ++ fmtSigned2 d ++ "%)"

/-- `line.strip()` keeping only non-blank lines (`coverage.py:113`). -/
def stripNonEmpty (l : String) : Option String :=
  let t := pyStrip l
  if t = "" then none else some t

/-- Comparison used by `sorted(changed_keys, key=lambda t: t[0])`. -/
def pathKeyLe (a b : String × String) : Prop := lexLe a.1.data b.1.data = true

instance : DecidableRel pathKeyLe :=
  fun a b => inferInstanceAs (Decidable (lexLe a.1.data b.1.data = true))

/-- The changed-file table rows before truncation (`coverage.py:113`–`133`):
strip and drop blank lines, map to keys (dropping unmappable paths), sort
stably by original path, and keep the rows whose key is in the head index. -/
def changedRows (head_files base_files : FileDict) (changed_files : String) : List String :=
  let changed := (splitlines changed_files).filterMap stripNonEmpty
  let changed_keys := changed.filterMap
    (fun p => (changed_path_to_jacoco_key p).map (fun k => (p, k)))
  (changed_keys.insertionSort pathKeyLe).filterMap (fun pk =>
    match dictGet head_files pk.2 with
    | none => none
    | some hc =>
      some ("| `" ++ pk.1 ++ "` | " ++
        (match dictGet base_files pk.2 with
         | some bc => renderFileDelta hc.pct bc.pct
         | none => fmtFixed2 hc.pct ++ "% (n/a)") ++ " |"))

/-- `render_changed_files_section` (`coverage.py:102`).  `none` models a
raised exception (from `line_counts` inside `file_line_counters`). -/
def render_changed_files_section (head_root : Element) (base_root : Option Element)
    (changed_files : String) (total_pct : ℚ) (base_total_pct : Option ℚ) :
    Option (List String) :=
  match file_line_counters head_root,
        (match base_root with
         | some b => file_line_counters b
         | none => some ([] : FileDict)) with
  | some head_files, some base_files =>
    let rows := changedRows head_files base_files changed_files
    let omitted_rows :=
      if rows.length > MAX_CHANGED_FILES_ROWS then rows.length - MAX_CHANGED_FILES_ROWS else 0
    let rows' :=
      if rows.length > MAX_CHANGED_FILES_ROWS then rows.take MAX_CHANGED_FILES_ROWS else rows
    let ind_lbl :=
      match base_total_pct with
      | some b => renderTotalDelta total_pct b
      | none => ("", "n/a")
    let pfx := if ind_lbl.1 ≠ "" then ind_lbl.1 ++ " " else ""
    some
      ((["",
         "## 🔍 Changed files coverage",
         "",
         "Total coverage: " ++ fmtFixed2 total_pct ++ "% (" ++ pfx ++ ind_lbl.2 ++ ")",
         ""] ++
        (if rows'.length ≠ 0 then
          ["| File | Line coverage |",
           "| ---- | ------------- |"] ++ rows'
         else [])) ++
       (if omitted_rows ≠ 0 then
         ["", "_Table truncated: " ++ toString omitted_rows ++ " more files omitted._"]
        else []))
  | _, _ => none

/-- `render_coverage_markdown` (`coverage.py:171`).  `fromstring` is the
abstract `ET.fromstring` (`none` = `ET.ParseError`); the overall `none`
models any exception escaping the function.  Note the code parses
`base_xml` with no exception handling. -/
def render_coverage_markdown (fromstring : String → Option Element)
    (head_xml : String) (base_xml : Option String)
    (base_requested : Bool) (changed_files : String) : Option String :=
  match fromstring head_xml with
  | none => none
  | some head_root =>
    match line_counts head_root with
    | none => none
    | some head_total =>
      let sectionRes : Option (List String) :=
        if base_requested = true ∧ pyStrip changed_files ≠ "" then
          match base_xml with
          | none =>
            render_changed_files_section head_root none changed_files head_total.pct none
          | some bx =>
            match fromstring bx with
            | none => none
            | some base_root =>
              match line_counts base_root with
              | none => none
              | some base_total =>
                render_changed_files_section head_root (some base_root) changed_files
                  head_total.pct (some base_total.pct)
        else some []
      match sectionRes, package_rows head_root with
      | some sectionLines, some pkgRows =>
        some (String.intercalate "\n"
          (([COVERAGE_COMMENT_MARKER] ++ sectionLines) ++
           (["",
             "## ☂️ Coverage details",
             "",
             "<details>",
             "<summary>Show details</summary>",
             "",
             "**Total line coverage:** " ++ fmtFixed2 head_total.pct ++ "% (" ++
               toString head_total.covered ++ "/" ++ toString head_total.total ++ " lines)",
             ""] ++
            render_package_table pkgRows ++
            ["", "</details>"])) ++ "\n")
      | _, _ => none

/-! ### Auxiliary, reference and concrete-input definitions used by the
theorems below -/

/-- A report node whose LINE counter carries `missed="2" covered="-1"`. -/
def negCounterElem : Element :=
  .mk "report" [] [.mk "counter" [("type", "LINE"), ("missed", "2"), ("covered", "-1")] []]

/-- A report node whose LINE counter carries an unparsable `missed="x"`. -/
def badCounterElem : Element :=
  .mk "report" [] [.mk "counter" [("type", "LINE"), ("missed", "x"), ("covered", "1")] []]

/-- A report node whose LINE counter has no `missed`/`covered` attributes. -/
def bareCounterElem : Element :=
  .mk "report" [] [.mk "counter" [("type", "LINE")] []]

/-- The toy parser used by closed witnesses: recognises one fixed head
document. -/
def toyHeadElem : Element := .mk "report" [] []

/-- Toy `fromstring`: parses exactly the string `"<report/>"`. -/
def toyParse : String → Option Element :=
  fun s => if s = "<report/>" then some toyHeadElem else none

/-- A report with one package `p` holding two `sourcefile` elements both
named `A.java`, with different line counters. -/
def dupRoot : Element :=
  .mk "report" []
    [.mk "package" [("name", "p")]
      [.mk "sourcefile" [("name", "A.java")]
        [.mk "counter" [("type", "LINE"), ("missed", "1"), ("covered", "1")] []],
       .mk "sourcefile" [("name", "A.java")]
        [.mk "counter" [("type", "LINE"), ("missed", "0"), ("covered", "5")] []]]]

/-- The document-order entries of `dupRoot`. -/
def dupEntries : List (String × LineCounts) := [("p/A.java", ⟨1, 1⟩), ("p/A.java", ⟨0, 5⟩)]

/-- The built file index of `dupRoot`: one binding, holding the second
sourcefile's counts. -/
def dupDict : FileDict := [("p/A.java", ⟨0, 5⟩)]

/-- Decidable statement that every package-level LINE counter that parses
has non-negative `missed`/`covered`. -/
def pkgCountsNonneg (pkgs : List Element) : Bool :=
  pkgs.all (fun pkg =>
    match line_counts pkg with
    | some c => decide (0 ≤ c.missed) && decide (0 ≤ c.covered)
    | none => true)

/-- A three-package report: `b/x` (1/1 lines), `a` (zero total, excluded),
`a/y` (3/4 lines) — out of name order on purpose. -/
def c6Root : Element :=
  .mk "report" []
    [.mk "package" [("name", "b/x")]
      [.mk "counter" [("type", "LINE"), ("missed", "0"), ("covered", "1")] []],
     .mk "package" [("name", "a")]
      [.mk "counter" [("type", "LINE"), ("missed", "0"), ("covered", "0")] []],
     .mk "package" [("name", "a/y")]
      [.mk "counter" [("type", "LINE"), ("missed", "1"), ("covered", "3")] []]]

/-- Expected rows for `c6Root`: zero-total package dropped, names dotted,
sorted ascending. -/
def c6Rows : List PkgRow := [("a.y", 75, 3, 4), ("b.x", 100, 1, 1)]

/-- The five lines that precede the changed-files table (marker blank line,
heading, blank, total-coverage line, blank), as produced by
`render_changed_files_section`. -/
def sectionPrefixLines (tp : ℚ) (btp : Option ℚ) : List String :=
  let ind_lbl :=
    match btp with
    | some b => renderTotalDelta tp b
    | none => ("", "n/a")
  let pfx := if ind_lbl.1 ≠ "" then ind_lbl.1 ++ " " else ""
  ["",
   "## 🔍 Changed files coverage",
   "",
   "Total coverage: " ++ fmtFixed2 tp ++ "% (" ++ pfx ++ ind_lbl.2 ++ ")",
   ""]

/-- A head report with one nameless package holding 60 sourcefiles
`F0.java` … `F59.java` with no counters. -/
def w7Root : Element :=
  .mk "report" []
    [.mk "package" [("name", "")]
      ((List.range 60).map (fun i =>
        Element.mk "sourcefile" [("name", "F" ++ toString i ++ ".java")] []))]

/-- 60 distinct valid changed-file paths, newline-separated. -/
def w7Cf : String :=
  String.intercalate "\n"
    ((List.range 60).map (fun i => "src/main/java/F" ++ toString i ++ ".java"))

/-- The file index of `w7Root`. -/
def w7Dict : FileDict :=
  (List.range 60).map (fun i => ("F" ++ toString i ++ ".java", ⟨0, 0⟩))

/-- The changed-keys list built inside `changedRows`. -/
def changedKeysOf (cf : String) : List (String × String) :=
  ((splitlines cf).filterMap stripNonEmpty).filterMap
    (fun p => (changed_path_to_jacoco_key p).map (fun k => (p, k)))

/-- Two changed-files inputs that are line permutations of each other. -/
def c8CfA : String := "src/main/java/B.java\nsrc/main/java/A.java"

/-- The same lines in the opposite order. -/
def c8CfB : String := "src/main/java/A.java\nsrc/main/java/B.java"

/-- Modelled from the claim's words (refinement reference, not the code):
among all four markers, the occurrence at the leftmost position wins, and
the fixed list order breaks ties only between markers starting at the same
position; the key is the suffix after that winning occurrence. -/
def leftmostMarkerKeySpec (path : String) : Option String :=
  let n := normalizedPath path
  if n = [] then none
  else
    let cands := markers.filterMap (fun m => (findSub n m.data).map (fun i => (i, m)))
    match cands.foldl
        (fun best c =>
          match best with
          | none => some c
          | some b => if c.1 < b.1 then some c else some b) none with
    | some im => some ⟨n.drop (im.1 + im.2.data.length)⟩
    | none => none

/-! ### Order properties of `lexLe` -/

theorem lexLe_total : ∀ x y, lexLe x y || lexLe y x
  | [], _ => by simp [lexLe]
  | _ :: _, [] => by simp [lexLe]
  | a :: as, b :: bs => by
    simp only [lexLe]
    rcases Nat.lt_trichotomy a.toNat b.toNat with h | h | h
    · simp [h, Nat.lt_asymm h]
    · simpa [h] using lexLe_total as bs
    · simp [h, Nat.lt_asymm h]

theorem char_toNat_inj {a b : Char} (h : a.toNat = b.toNat) : a = b := by
  have := congrArg Char.ofNat h
  rwa [Char.ofNat_toNat, Char.ofNat_toNat] at this

theorem lexLe_antisymm : ∀ x y, lexLe x y → lexLe y x → x = y
  | [], [], _, _ => rfl
  | [], _ :: _, _, h => by simp [lexLe] at h
  | _ :: _, [], h, _ => by simp [lexLe] at h
  | a :: as, b :: bs, h1, h2 => by
    simp only [lexLe] at h1 h2
    rcases Nat.lt_trichotomy a.toNat b.toNat with h | h | h
    · simp [h, Nat.lt_asymm h] at h2
    · obtain rfl : a = b := char_toNat_inj h
      simp only [Nat.lt_irrefl, if_false, ite_self] at h1 h2
      exact congrArg (a :: ·) (lexLe_antisymm as bs h1 h2)
    · simp [h, Nat.lt_asymm h] at h1

theorem lexLe_trans : ∀ x y z, lexLe x y → lexLe y z → lexLe x z
  | [], _, _, _, _ => by simp [lexLe]
  | a :: as, b :: bs, [], _, h2 => by simp [lexLe] at h2
  | a :: as, [], _, h1, _ => by simp [lexLe] at h1
  | a :: as, b :: bs, c :: cs, h1, h2 => by
    simp only [lexLe] at h1 h2 ⊢
    rcases Nat.lt_trichotomy a.toNat b.toNat with hab | hab | hab
    · rcases Nat.lt_trichotomy b.toNat c.toNat with hbc | hbc | hbc
      · simp [Nat.lt_trans hab hbc]
      · simp [hbc ▸ hab]
      · simp [hab, Nat.lt_asymm hab] at h1
        simp [hbc, Nat.lt_asymm hbc] at h2
    · rcases Nat.lt_trichotomy b.toNat c.toNat with hbc | hbc | hbc
      · simp [hab ▸ hbc]
      · have hac : a.toNat = c.toNat := hab.trans hbc
        simp only [hab, hbc, Nat.lt_irrefl, if_false, ite_self] at h1 h2
        simp only [hac, Nat.lt_irrefl, if_false, ite_self]
        exact lexLe_trans as bs cs h1 h2
      · simp [hbc, Nat.lt_asymm hbc] at h2
    · simp [hab, Nat.lt_asymm hab] at h1

instance : IsTotal PkgRow pkgRowLe :=
  ⟨fun a b => by
    have h := lexLe_total a.1.data b.1.data
    rcases Bool.or_eq_true_iff.mp h with h' | h'
    · exact Or.inl h'
    · exact Or.inr h'⟩

instance : IsTrans PkgRow pkgRowLe :=
  ⟨fun a b c h1 h2 => lexLe_trans a.1.data b.1.data c.1.data h1 h2⟩

instance : IsTotal (String × String) pathKeyLe :=
  ⟨fun a b => by
    have h := lexLe_total a.1.data b.1.data
    rcases Bool.or_eq_true_iff.mp h with h' | h'
    · exact Or.inl h'
    · exact Or.inr h'⟩

instance : IsTrans (String × String) pathKeyLe :=
  ⟨fun a b c h1 h2 => lexLe_trans a.1.data b.1.data c.1.data h1 h2⟩

/-- Two sorted permutations of each other are equal as soon as the sorting
relation is antisymmetric on the elements that actually occur. -/
theorem eq_of_perm_of_pairwise_of_antisymmOn {α : Type} {R : α → α → Prop} :
    ∀ {l₁ l₂ : List α}, l₁.Perm l₂ → l₁.Pairwise R → l₂.Pairwise R →
      (∀ a ∈ l₁, ∀ b ∈ l₂, R a b → R b a → a = b) → l₁ = l₂
  | [], l₂, hp, _, _, _ => (hp.nil_eq).symm ▸ rfl
  | a :: t₁, [], hp, _, _, _ => absurd hp.symm (by simp [List.Perm])
  | a :: t₁, b :: t₂, hp, hs₁, hs₂, hanti => by
    by_cases hab : a = b
    · subst hab
      have ht := hp.cons_inv
      have := eq_of_perm_of_pairwise_of_antisymmOn ht hs₁.of_cons hs₂.of_cons
        (fun x hx y hy => hanti x (List.mem_cons_of_mem _ hx) y (List.mem_cons_of_mem _ hy))
      rw [this]
    · exfalso
      have ha₂ : a ∈ b :: t₂ := hp.mem_iff.mp (List.mem_cons_self a t₁)
      have hb₁ : b ∈ a :: t₁ := hp.mem_iff.mpr (List.mem_cons_self b t₂)
      have ha₂' : a ∈ t₂ := by
        rcases List.mem_cons.mp ha₂ with h | h
        · exact absurd h hab
        · exact h
      have hb₁' : b ∈ t₁ := by
        rcases List.mem_cons.mp hb₁ with h | h
        · exact absurd h.symm hab
        · exact h
      have hRab : R a b := (List.pairwise_cons.mp hs₁).1 b hb₁'
      have hRba : R b a := (List.pairwise_cons.mp hs₂).1 a ha₂'
      exact hab (hanti a (List.mem_cons_self a t₁) b (List.mem_cons_self b t₂) hRab hRba)

/-! ### Claim C10 -/

/-- Claim C10: a LINE counter with a negative integer attribute (here
`covered="-1"`) makes `line_counts` return a `LineCounts` with a negative
field — no non-negativity validation happens at the parsing boundary — and
on this value the `pct ∈ [0, 100]` invariant indeed fails (`pct < 0`). -/
theorem line_counts_negative_passthrough :
    line_counts negCounterElem = some ⟨2, -1⟩ ∧
    (LineCounts.mk 2 (-1)).covered < 0 ∧
    (LineCounts.mk 2 (-1)).pct < 0 := by
  refine ⟨by decide, by decide, ?_⟩
  show (if ((2 : Int) + (-1) : Int) = 0 then (0 : ℚ) else ((-1 : Int) : ℚ) * 100 / (((2 : Int) + (-1) : Int) : ℚ)) < 0
  norm_num

/-! ### Claim C5 -/

/-- Claim C5: for `LineCounts` with non-negative fields, `total` is
`missed + covered`, `pct` is `0` exactly at `total = 0` and
`covered / total * 100` otherwise, and `pct` always lies in `[0, 100]`;
`total = 0` is an ordinary value, not a division error. -/
theorem lineCounts_total_pct_invariants (lc : LineCounts)
    (hm : 0 ≤ lc.missed) (hc : 0 ≤ lc.covered) :
    lc.total = lc.missed + lc.covered ∧
    (lc.total = 0 → lc.pct = 0) ∧
    (lc.total ≠ 0 → lc.pct = (lc.covered : ℚ) / (lc.total : ℚ) * 100) ∧
    0 ≤ lc.pct ∧ lc.pct ≤ 100 := by
  refine ⟨rfl, fun h => by simp [LineCounts.pct, h], fun h => ?_, ?_, ?_⟩
  · rw [LineCounts.pct, if_neg h]
    ring
  · rw [LineCounts.pct]
    split
    · exact le_refl 0
    · rename_i h
      have htot : (0 : Int) < lc.total := lt_of_le_of_ne (by unfold LineCounts.total; omega) (Ne.symm h)
      have : (0 : ℚ) < (lc.total : ℚ) := by exact_mod_cast htot
      positivity
  · rw [LineCounts.pct]
    split
    · norm_num
    · rename_i h
      have htot : (0 : Int) < lc.total := lt_of_le_of_ne (by unfold LineCounts.total; omega) (Ne.symm h)
      have h0 : (0 : ℚ) < (lc.total : ℚ) := by exact_mod_cast htot
      rw [div_le_iff₀ h0]
      have hle : lc.covered ≤ lc.total := by unfold LineCounts.total; omega
      have : (lc.covered : ℚ) ≤ (lc.total : ℚ) := by exact_mod_cast hle
      nlinarith

/-- Witness for C5 at `LineCounts(1, 3)`. -/
theorem lineCounts_total_pct_invariants_witness :
    (LineCounts.mk 1 3).total = (LineCounts.mk 1 3).missed + (LineCounts.mk 1 3).covered ∧
    ((LineCounts.mk 1 3).total = 0 → (LineCounts.mk 1 3).pct = 0) ∧
    ((LineCounts.mk 1 3).total ≠ 0 →
      (LineCounts.mk 1 3).pct = ((LineCounts.mk 1 3).covered : ℚ) / ((LineCounts.mk 1 3).total : ℚ) * 100) ∧
    0 ≤ (LineCounts.mk 1 3).pct ∧ (LineCounts.mk 1 3).pct ≤ 100 :=
  lineCounts_total_pct_invariants ⟨1, 3⟩ (by decide) (by decide)

/-! ### Claim C2 -/

/-- Counterexample to C2 as stated: on a LINE counter whose `missed`
attribute is a non-empty string that is not an integer literal,
`line_counts` raises `ValueError` (`int("x")`) instead of returning
`LineCounts(0, 0)`. -/
theorem line_counts_unparsable_raises :
    line_counts badCounterElem = none ∧
    line_counts badCounterElem ≠ some ⟨0, 0⟩ := by
  refine ⟨by decide, by decide⟩

/-- Claim C2 (amended): `line_counts` returns `LineCounts(0, 0)` when no
LINE counter is present, and a missing or empty `missed`/`covered`
attribute value defaults to `0`; but a present, non-empty, unparsable
value raises (is not absorbed into `LineCounts(0, 0)`). -/
theorem line_counts_defaults (e : Element)
    (h : (e.findall "counter").find? (fun c => c.get "type" == some "LINE") = none ∨
      ∃ c, (e.findall "counter").find? (fun c => c.get "type" == some "LINE") = some c ∧
        (c.get "missed" = none ∨ c.get "missed" = some "") ∧
        (c.get "covered" = none ∨ c.get "covered" = some "")) :
    line_counts e = some ⟨0, 0⟩ := by
  rcases h with h | ⟨c, hfind, hm, hc⟩
  · rw [line_counts, h]
  · rw [line_counts, hfind]
    have hm' : attrIntOrZero c "missed" = some 0 := by
      rcases hm with h' | h' <;> simp [attrIntOrZero, h']
    have hc' : attrIntOrZero c "covered" = some 0 := by
      rcases hc with h' | h' <;> simp [attrIntOrZero, h']
    simp [hm', hc']

/-- Witness for the amended C2 on a LINE counter with absent attributes. -/
theorem line_counts_defaults_witness :
    line_counts bareCounterElem = some ⟨0, 0⟩ :=
  line_counts_defaults bareCounterElem
    (Or.inr ⟨Element.mk "counter" [("type", "LINE")] [], rfl,
      Or.inl rfl, Or.inl rfl⟩)

/-! ### Claim C1 -/

/-- Claim C1 (code bug): `render_coverage_markdown` parses a supplied base
XML string with `ET.fromstring` and no exception handling
(`coverage.py:188`), so with a valid head, a non-blank changed-files text
and `base_requested = True`, an unparsable base XML string makes the whole
call raise instead of degrading to the `n/a` fallback (the inline
pipeline version in `main.py:149` catches `ET.ParseError`; this extracted
function does not). -/
theorem render_raises_on_unparsable_base
    (fromstring : String → Option Element) (head_xml base_xml changed_files : String)
    (head_root : Element)
    (hhead : fromstring head_xml = some head_root)
    (hbase : fromstring base_xml = none)
    (hcf : pyStrip changed_files ≠ "") :
    render_coverage_markdown fromstring head_xml (some base_xml) true changed_files = none := by
  simp only [render_coverage_markdown, hhead]
  cases hlc : line_counts head_root with
  | none => rfl
  | some ht =>
    simp [hbase, hcf]

/-- Witness for C1: the concrete failing input (valid head, unparsable
base `"<"`, one changed file). -/
theorem render_raises_on_unparsable_base_witness :
    render_coverage_markdown toyParse "<report/>" (some "<") true "src/main/java/A.java" = none :=
  render_raises_on_unparsable_base toyParse "<report/>" "<" "src/main/java/A.java"
    toyHeadElem rfl rfl (by decide)

/-! ### Claim C9 -/

theorem find?_map_replace_ne (a : String) (v : LineCounts) (k : String) (hne : a ≠ k) :
    ∀ d : FileDict,
      (d.map (fun p => if p.1 == a then (a, v) else p)).find? (fun p => p.1 == k) =
        d.find? (fun p => p.1 == k)
  | [] => rfl
  | p :: d => by
    by_cases hpa : p.1 = a
    · have hrw : (if p.1 == a then (a, v) else p) = (a, v) := if_pos (by simpa using hpa)
      simp only [List.map_cons, hrw]
      rw [List.find?_cons_of_neg _ (by simpa using hne),
          List.find?_cons_of_neg _ (by simp [hpa, hne])]
      exact find?_map_replace_ne a v k hne d
    · have hrw : (if p.1 == a then (a, v) else p) = p := if_neg (by simpa using hpa)
      simp only [List.map_cons, hrw]
      by_cases hpk : p.1 = k
      · rw [List.find?_cons_of_pos _ (by simpa using hpk),
            List.find?_cons_of_pos _ (by simpa using hpk)]
      · rw [List.find?_cons_of_neg _ (by simpa using hpk),
            List.find?_cons_of_neg _ (by simpa using hpk)]
        exact find?_map_replace_ne a v k hne d

theorem find?_map_replace_eq (a : String) (v : LineCounts) :
    ∀ d : FileDict, d.any (fun p => p.1 == a) = true →
      (d.map (fun p => if p.1 == a then (a, v) else p)).find? (fun p => p.1 == a) = some (a, v)
  | [], h => by simp at h
  | p :: d, h => by
    by_cases hpa : p.1 = a
    · have hrw : (if p.1 == a then (a, v) else p) = (a, v) := if_pos (by simpa using hpa)
      simp only [List.map_cons, hrw]
      exact List.find?_cons_of_pos _ (by simp)
    · have hrw : (if p.1 == a then (a, v) else p) = p := if_neg (by simpa using hpa)
      simp only [List.map_cons, hrw]
      rw [List.find?_cons_of_neg _ (by simpa using hpa)]
      apply find?_map_replace_eq a v d
      simpa [List.any_cons, (by simpa using hpa : ¬ (p.1 == a) = true)] using h

theorem dictGet_insert (d : FileDict) (a : String) (v : LineCounts) (k : String) :
    dictGet (dictInsert d a v) k = if a = k then some v else dictGet d k := by
  unfold dictInsert dictGet
  by_cases hany : d.any (fun p => p.1 == a) = true
  · rw [if_pos hany]
    by_cases hak : a = k
    · subst hak
      rw [find?_map_replace_eq a v d hany, if_pos rfl]
      rfl
    · rw [find?_map_replace_ne a v k hak d, if_neg hak]
  · rw [if_neg hany, List.find?_append]
    by_cases hak : a = k
    · subst hak
      have hnone : d.find? (fun p => p.1 == a) = none := by
        rw [List.find?_eq_none]
        intro x hx hpx
        exact hany (List.any_eq_true.mpr ⟨x, hx, hpx⟩)
      rw [hnone]
      simp
    · have h1 : ([(a, v)] : FileDict).find? (fun p => p.1 == k) = none := by
        simp [hak]
      rw [h1, if_neg hak]
      cases d.find? (fun p => p.1 == k) <;> rfl

theorem dictGet_foldl :
    ∀ (es : List (String × LineCounts)) (d : FileDict) (k : String),
      dictGet (es.foldl (fun d e => dictInsert d e.1 e.2) d) k =
        (match es.reverse.find? (fun e => e.1 == k) with
         | some e => some e.2
         | none => dictGet d k)
  | [], d, k => by simp
  | e :: es, d, k => by
    simp only [List.foldl_cons, List.reverse_cons, List.find?_append]
    rw [dictGet_foldl es (dictInsert d e.1 e.2) k]
    cases hes : es.reverse.find? (fun x => x.1 == k) with
    | some x => rfl
    | none =>
      simp only [Option.none_or]
      rw [dictGet_insert]
      by_cases hek : e.1 = k
      · simp [hek]
      · simp [hek]

/-- Claim C9: the file index is a dict written in document order, so for a
key written more than once (two `sourcefile` elements with the same name
in the same package), the lookup returns the counts of the *last* write in
document order — later entries silently overwrite earlier ones. -/
theorem file_index_last_write_wins (root : Element) (es : List (String × LineCounts))
    (d : FileDict) (k : String)
    (hes : rawFileEntries (root.findall "package") = some es)
    (hd : file_line_counters root = some d) :
    dictGet d k = (es.reverse.find? (fun e => e.1 == k)).map (·.2) := by
  unfold file_line_counters at hd
  rw [hes] at hd
  have hd' : es.foldl (fun d e => dictInsert d e.1 e.2) [] = d := by
    simpa using hd
  rw [← hd', dictGet_foldl es [] k]
  cases hfind : es.reverse.find? (fun e => e.1 == k) <;> rfl

/-- Witness for C9: the duplicate key maps to the counts of the last
`sourcefile` in document order. -/
theorem file_index_last_write_wins_witness :
    dictGet dupDict "p/A.java" = some ⟨0, 5⟩ :=
  (file_index_last_write_wins dupRoot dupEntries dupDict "p/A.java"
    (by decide) (by decide)).trans (by decide)

/-! ### Claim C6 -/

theorem packageRowsRaw_mem :
    ∀ (pkgs : List Element) (rs : List PkgRow), packageRowsRaw pkgs = some rs →
      ∀ r : PkgRow, r ∈ rs ↔ ∃ pkg ∈ pkgs, ∃ c, line_counts pkg = some c ∧ c.total ≠ 0 ∧
        r = (dotName ((pkg.get "name").getD ""), c.pct, c.covered, c.total)
  | [], rs, h, r => by
    obtain rfl : ([] : List PkgRow) = rs := Option.some.inj h
    simp
  | pkg :: pkgs, rs, h, r => by
    rw [packageRowsRaw] at h
    cases hl : line_counts pkg with
    | none => rw [hl] at h; exact absurd h (by simp)
    | some c =>
      rw [hl] at h
      cases hraw : packageRowsRaw pkgs with
      | none => rw [hraw] at h; exact absurd h (by simp)
      | some rs' =>
        rw [hraw] at h
        have ih := packageRowsRaw_mem pkgs rs' hraw r
        by_cases hz : c.total = 0
        · simp only [hz, if_pos rfl] at h
          obtain rfl : rs' = rs := by simpa using h
          rw [ih]
          constructor
          · rintro ⟨p, hp, c', hc', hnz, hrr⟩
            exact ⟨p, List.mem_cons_of_mem _ hp, c', hc', hnz, hrr⟩
          · rintro ⟨p, hp, c', hc', hnz, hrr⟩
            rcases List.mem_cons.mp hp with rfl | hp'
            · rw [hl] at hc'
              obtain rfl : c = c' := by injection hc'
              exact absurd hz hnz
            · exact ⟨p, hp', c', hc', hnz, hrr⟩
        · simp only [if_neg hz] at h
          obtain rfl :
              (dotName ((pkg.get "name").getD ""), c.pct, c.covered, c.total) :: rs' = rs := by
            simpa using h
          rw [List.mem_cons, ih]
          constructor
          · rintro (rfl | ⟨p, hp, c', hc', hnz, hrr⟩)
            · exact ⟨pkg, List.mem_cons_self _ _, c, hl, hz, rfl⟩
            · exact ⟨p, List.mem_cons_of_mem _ hp, c', hc', hnz, hrr⟩
          · rintro ⟨p, hp, c', hc', hnz, hrr⟩
            rcases List.mem_cons.mp hp with rfl | hp'
            · rw [hl] at hc'
              obtain rfl : c = c' := by injection hc'
              exact Or.inl hrr
            · exact Or.inr ⟨p, hp', c', hc', hnz, hrr⟩

/-- Claim C6: for a report whose package counters are non-negative, the
package-rows list contains exactly the packages whose own line counter has
`total > 0` (zero-total packages are excluded), each row carrying the name
with `/` replaced by `.`, and the list is sorted ascending by that dotted
name (Python's stable sort by the row name). -/
theorem package_rows_spec (root : Element) (rows : List PkgRow)
    (h : package_rows root = some rows)
    (hnn : pkgCountsNonneg (root.findall "package") = true) :
    List.Pairwise pkgRowLe rows ∧
    ∀ r : PkgRow, r ∈ rows ↔ ∃ pkg ∈ root.findall "package", ∃ c,
      line_counts pkg = some c ∧ 0 < c.total ∧
      r = (dotName ((pkg.get "name").getD ""), c.pct, c.covered, c.total) := by
  unfold package_rows at h
  cases hraw : packageRowsRaw (root.findall "package") with
  | none => rw [hraw] at h; exact absurd h (by simp)
  | some raw =>
    rw [hraw] at h
    have hrows : rows = raw.insertionSort pkgRowLe := by
      have := h
      simp only [Option.map_some'] at this
      exact (Option.some.inj this).symm
    subst hrows
    refine ⟨List.sorted_insertionSort pkgRowLe raw, fun r => ?_⟩
    rw [List.mem_insertionSort, packageRowsRaw_mem _ raw hraw r]
    constructor
    · rintro ⟨pkg, hp, c, hc, hnz, hr⟩
      refine ⟨pkg, hp, c, hc, ?_, hr⟩
      have hall := List.all_eq_true.mp hnn pkg hp
      rw [hc] at hall
      simp only [Bool.and_eq_true, decide_eq_true_eq] at hall
      have h1 : (0 : Int) ≤ c.missed := hall.1
      have h2 : (0 : Int) ≤ c.covered := hall.2
      have hne : c.missed + c.covered ≠ 0 := by
        unfold LineCounts.total at hnz; exact hnz
      unfold LineCounts.total
      omega
    · rintro ⟨pkg, hp, c, hc, hpos, hr⟩
      exact ⟨pkg, hp, c, hc, hpos.ne', hr⟩

/-- Witness for C6 on `c6Root`. -/
theorem package_rows_spec_witness :
    package_rows c6Root = some c6Rows ∧ List.Pairwise pkgRowLe c6Rows :=
  ⟨by decide, (package_rows_spec c6Root c6Rows (by decide) (by decide)).1⟩

/-! ### Claim C7 -/

/-- Claim C7: when more than `MAX_CHANGED_FILES_ROWS` (50) changed-file
rows survive, the table holds exactly the first 50 rows of the sorted row
list followed by a truncation notice naming the number of omitted rows;
with 50 or fewer rows no notice appears. -/
theorem changed_files_truncation (head_root : Element) (base_root : Option Element)
    (cf : String) (tp : ℚ) (btp : Option ℚ) (hf bf : FileDict)
    (hh : file_line_counters head_root = some hf)
    (hb : (match base_root with
           | some b => file_line_counters b
           | none => some ([] : FileDict)) = some bf) :
    (MAX_CHANGED_FILES_ROWS < (changedRows hf bf cf).length →
      render_changed_files_section head_root base_root cf tp btp =
        some (sectionPrefixLines tp btp ++
          (["| File | Line coverage |", "| ---- | ------------- |"] ++
            (changedRows hf bf cf).take MAX_CHANGED_FILES_ROWS) ++
          ["", "_Table truncated: " ++
            toString ((changedRows hf bf cf).length - MAX_CHANGED_FILES_ROWS) ++
            " more files omitted._"])) ∧
    ((changedRows hf bf cf).length ≤ MAX_CHANGED_FILES_ROWS →
      render_changed_files_section head_root base_root cf tp btp =
        some (sectionPrefixLines tp btp ++
          (if (changedRows hf bf cf).length ≠ 0 then
            ["| File | Line coverage |", "| ---- | ------------- |"] ++ changedRows hf bf cf
           else []))) := by
  constructor
  · intro hgt
    simp only [render_changed_files_section, hh, hb]
    have hne : (changedRows hf bf cf).length - MAX_CHANGED_FILES_ROWS ≠ 0 :=
      Nat.sub_ne_zero_of_lt hgt
    have htk : ((changedRows hf bf cf).take MAX_CHANGED_FILES_ROWS).length ≠ 0 := by
      simp only [List.length_take]
      exact Nat.ne_of_gt (lt_min (by decide) (Nat.lt_trans (by decide) hgt))
    simp only [if_pos hgt, if_pos hne, if_pos htk, sectionPrefixLines]
  · intro hle
    simp only [render_changed_files_section, hh, hb]
    have hngt : ¬ ((changedRows hf bf cf).length > MAX_CHANGED_FILES_ROWS) :=
      not_lt.mpr hle
    simp only [if_neg hngt, sectionPrefixLines]
    simp [List.append_assoc]

/-- Witness for C7: 60 surviving rows render as exactly the first 50
post-sort rows plus the notice `10 more files omitted`. -/
theorem changed_files_truncation_witness :
    (changedRows w7Dict [] w7Cf).length = 60 ∧
    render_changed_files_section w7Root none w7Cf 0 none =
      some (sectionPrefixLines 0 none ++
        (["| File | Line coverage |", "| ---- | ------------- |"] ++
          (changedRows w7Dict [] w7Cf).take MAX_CHANGED_FILES_ROWS) ++
        ["", "_Table truncated: 10 more files omitted._"]) := by
  have hlen : (changedRows w7Dict [] w7Cf).length = 60 := by decide
  refine ⟨hlen, ?_⟩
  have h := (changed_files_truncation w7Root none w7Cf 0 none w7Dict []
    (by decide) rfl).1 (by rw [hlen]; decide)
  rw [hlen] at h
  exact h

/-! ### Claim C8 -/

theorem rstripW_eq_nil_iff (p : Char → Bool) (l : List Char) :
    rstripW p l = [] ↔ ∀ c ∈ l, p c := by
  unfold rstripW
  rw [List.reverse_eq_nil_iff, List.dropWhile_eq_nil_iff]
  constructor
  · intro h c hc
    exact h c (List.mem_reverse.mpr hc)
  · intro h c hc
    exact h c (List.mem_reverse.mp hc)

theorem pyStripL_eq_nil_iff (l : List Char) :
    pyStripL l = [] ↔ ∀ c ∈ l, isPyWs c := by
  unfold pyStripL
  rw [rstripW_eq_nil_iff]
  constructor
  · intro h c hc
    rcases List.mem_append.mp
        ((List.takeWhile_append_dropWhile isPyWs l) ▸ hc) with h' | h'
    · exact List.mem_takeWhile_imp h'
    · exact h c h'
  · intro h c hc
    exact h c ((List.takeWhile_append_dropWhile isPyWs l) ▸ List.mem_append_right _ hc)

theorem splitNl_ne_nil : ∀ l : List Char, splitNl l ≠ []
  | [] => by simp [splitNl]
  | c :: rest => by
    rw [splitNl]
    by_cases h : c = '\n'
    · simp [h]
    · rw [if_neg h]
      cases hs : splitNl rest with
      | nil => simp
      | cons p ps => simp

theorem allWs_splitNl : ∀ l : List Char,
    (∀ c ∈ l, isPyWs c) ↔ ∀ part ∈ splitNl l, ∀ c ∈ part, isPyWs c
  | [] => by simp [splitNl]
  | c :: rest => by
    rw [splitNl]
    by_cases h : c = '\n'
    · subst h
      rw [if_pos rfl]
      constructor
      · intro hall part hpart c hc
        rcases List.mem_cons.mp hpart with rfl | hpart'
        · cases hc
        · exact (allWs_splitNl rest).mp
            (fun c' hc' => hall c' (List.mem_cons_of_mem _ hc')) part hpart' c hc
      · intro hall c' hc'
        rcases List.mem_cons.mp hc' with rfl | hc''
        · decide
        · exact (allWs_splitNl rest).mpr
            (fun part hpart => hall part (List.mem_cons_of_mem _ hpart)) c' hc''
    · rw [if_neg h]
      cases hs : splitNl rest with
      | nil => exact absurd hs (splitNl_ne_nil rest)
      | cons p ps =>
        have ih := allWs_splitNl rest
        rw [hs] at ih
        simp only [List.forall_mem_cons] at ih ⊢
        constructor
        · rintro ⟨hc, hrest⟩
          have := ih.mp hrest
          exact ⟨⟨hc, this.1⟩, this.2⟩
        · rintro ⟨⟨hc, hp⟩, hps⟩
          exact ⟨hc, ih.mpr ⟨hp, hps⟩⟩

theorem pyStrip_eq_empty_iff (s : String) :
    pyStrip s = "" ↔ ∀ c ∈ s.data, isPyWs c := by
  unfold pyStrip
  constructor
  · intro h
    have : pyStripL s.data = [] := congrArg String.data h
    exact (pyStripL_eq_nil_iff s.data).mp this
  · intro h
    have : pyStripL s.data = [] := (pyStripL_eq_nil_iff s.data).mpr h
    rw [this]

theorem blank_iff_all_lines_blank (s : String) :
    pyStrip s = "" ↔ ∀ l ∈ splitlines s, pyStrip l = "" := by
  rw [pyStrip_eq_empty_iff]
  unfold splitlines
  cases hd : s.data with
  | nil => simp
  | cons c rest =>
    simp only []
    have hparts :
        (∀ c' ∈ c :: rest, isPyWs c') ↔
          ∀ l ∈ (splitNl (c :: rest)).map (fun p => (⟨p⟩ : String)), pyStrip l = "" := by
      rw [allWs_splitNl (c :: rest)]
      constructor
      · intro h l hl
        rcases List.mem_map.mp hl with ⟨p, hp, rfl⟩
        rw [pyStrip_eq_empty_iff]
        exact h p hp
      · intro h part hpart
        have := h ⟨part⟩ (List.mem_map.mpr ⟨part, hpart, rfl⟩)
        rw [pyStrip_eq_empty_iff] at this
        exact this
    rw [hparts]
    set parts := (splitNl (c :: rest)).map (fun p => (⟨p⟩ : String)) with hpdef
    by_cases hlast : parts.getLast? = some ""
    · rw [if_pos hlast]
      constructor
      · intro h l hl
        exact h l (List.dropLast_sublist parts |>.mem hl)
      · intro h l hl
        have hne : parts ≠ [] := by
          intro h0
          rw [h0] at hlast
          exact Option.noConfusion hlast
        have hsplit := List.dropLast_append_getLast hne
        rcases List.mem_append.mp (hsplit ▸ hl) with h' | h'
        · exact h l h'
        · have hl' : l = parts.getLast hne := by simpa using h'
          have : parts.getLast hne = "" := by
            have := List.getLast?_eq_getLast parts hne
            rw [this] at hlast
            exact Option.some.inj hlast
          rw [hl', this]
          rfl
    · rw [if_neg hlast]

theorem mem_changedKeysOf {cf : String} {x : String × String}
    (hx : x ∈ changedKeysOf cf) :
    changed_path_to_jacoco_key x.1 = some x.2 := by
  rcases List.mem_filterMap.mp hx with ⟨p, _, hmap⟩
  rcases Option.map_eq_some'.mp hmap with ⟨k, hk, hpk⟩
  cases hpk
  exact hk

theorem changedRows_perm_invariant (hf bf : FileDict) (cf₁ cf₂ : String)
    (hperm : (splitlines cf₁).Perm (splitlines cf₂)) :
    changedRows hf bf cf₁ = changedRows hf bf cf₂ := by
  have hkeys : (changedKeysOf cf₁).Perm (changedKeysOf cf₂) :=
    (hperm.filterMap stripNonEmpty).filterMap _
  have hsortEq :
      (changedKeysOf cf₁).insertionSort pathKeyLe =
        (changedKeysOf cf₂).insertionSort pathKeyLe := by
    apply eq_of_perm_of_pairwise_of_antisymmOn
      (((List.perm_insertionSort pathKeyLe _).trans hkeys).trans
        (List.perm_insertionSort pathKeyLe _).symm)
      (List.sorted_insertionSort pathKeyLe _)
      (List.sorted_insertionSort pathKeyLe _)
    intro a ha b hb hab hba
    have ha' := mem_changedKeysOf ((List.mem_insertionSort pathKeyLe).mp ha)
    have hb' := mem_changedKeysOf ((List.mem_insertionSort pathKeyLe).mp hb)
    have h1 : a.1 = b.1 :=
      String.ext (lexLe_antisymm a.1.data b.1.data hab hba)
    have h2 : a.2 = b.2 := by
      rw [h1] at ha'
      exact Option.some.inj (ha'.symm.trans hb')
    cases a
    cases b
    simp only at h1 h2
    rw [h1, h2]
  show
    ((changedKeysOf cf₁).insertionSort pathKeyLe).filterMap _ =
      ((changedKeysOf cf₂).insertionSort pathKeyLe).filterMap _
  rw [hsortEq]

/-- Claim C8: `render_coverage_markdown` is a pure function of its
arguments (determinism across runs holds by construction in this
embedding) and its output does not depend on the order of the lines of
the changed-files input: permuting the lines yields a byte-identical
markdown string. -/
theorem render_order_independent
    (fromstring : String → Option Element) (head_xml : String) (base_xml : Option String)
    (base_requested : Bool) (cf₁ cf₂ : String)
    (hperm : (splitlines cf₁).Perm (splitlines cf₂)) :
    render_coverage_markdown fromstring head_xml base_xml base_requested cf₁ =
      render_coverage_markdown fromstring head_xml base_xml base_requested cf₂ := by
  have hblank : (pyStrip cf₁ = "") ↔ (pyStrip cf₂ = "") := by
    rw [blank_iff_all_lines_blank cf₁, blank_iff_all_lines_blank cf₂]
    constructor
    · intro h l hl
      exact h l (hperm.mem_iff.mpr hl)
    · intro h l hl
      exact h l (hperm.mem_iff.mp hl)
  have hsec : ∀ (hr : Element) (br : Option Element) (tp : ℚ) (btp : Option ℚ),
      render_changed_files_section hr br cf₁ tp btp =
        render_changed_files_section hr br cf₂ tp btp := by
    intro hr br tp btp
    unfold render_changed_files_section
    cases file_line_counters hr with
    | none => rfl
    | some hf =>
      cases hbase : (match br with
        | some b => file_line_counters b
        | none => some ([] : FileDict)) with
      | none => rfl
      | some bf =>
        simp only [changedRows_perm_invariant hf bf cf₁ cf₂ hperm]
  by_cases hc : base_requested = true ∧ pyStrip cf₁ ≠ ""
  case pos =>
    have hc₂ : base_requested = true ∧ pyStrip cf₂ ≠ "" :=
      ⟨hc.1, fun h => hc.2 (hblank.mpr h)⟩
    cases base_xml with
    | none =>
      cases hh : fromstring head_xml with
      | none => simp only [render_coverage_markdown, hh]
      | some head_root =>
        cases hlc : line_counts head_root with
        | none => simp only [render_coverage_markdown, hh, hlc]
        | some head_total =>
          simp only [render_coverage_markdown, hh, hlc]
          rw [if_pos hc, if_pos hc₂, hsec]
    | some bx =>
      cases hh : fromstring head_xml with
      | none => simp only [render_coverage_markdown, hh]
      | some head_root =>
        cases hlc : line_counts head_root with
        | none => simp only [render_coverage_markdown, hh, hlc]
        | some head_total =>
          cases hfb : fromstring bx with
          | none =>
            simp only [render_coverage_markdown, hh, hlc, hfb]
            rw [if_pos hc, if_pos hc₂]
          | some base_root =>
            cases hbc : line_counts base_root with
            | none =>
              simp only [render_coverage_markdown, hh, hlc, hfb, hbc]
              rw [if_pos hc, if_pos hc₂]
            | some base_total =>
              simp only [render_coverage_markdown, hh, hlc, hfb, hbc]
              rw [if_pos hc, if_pos hc₂, hsec]
  case neg =>
    have hc₂ : ¬ (base_requested = true ∧ pyStrip cf₂ ≠ "") :=
      fun h => hc ⟨h.1, fun h0 => h.2 (hblank.mp h0)⟩
    cases hh : fromstring head_xml with
    | none => simp only [render_coverage_markdown, hh]
    | some head_root =>
      cases hlc : line_counts head_root with
      | none => simp only [render_coverage_markdown, hh, hlc]
      | some head_total =>
        simp only [render_coverage_markdown, hh, hlc]
        rw [if_neg hc, if_neg hc₂]

/-- Witness for C8 at a concrete pair of permuted changed-files inputs. -/
theorem render_order_independent_witness :
    render_coverage_markdown toyParse "<report/>" none true c8CfA =
      render_coverage_markdown toyParse "<report/>" none true c8CfB :=
  render_order_independent toyParse "<report/>" none true c8CfA c8CfB (by decide)

/-! ### `findSub` characterisation -/

theorem findSub_some_isPrefixOf :
    ∀ (n m : List Char) (i : Nat), findSub n m = some i → m.isPrefixOf (n.drop i) = true
  | [], m, i, h => by
    rw [findSub] at h
    split at h
    · rename_i hp
      obtain rfl : (0 : Nat) = i := Option.some.inj h
      simpa using hp
    · exact absurd h (by simp)
  | c :: t, m, i, h => by
    rw [findSub] at h
    split at h
    · rename_i hp
      obtain rfl : (0 : Nat) = i := Option.some.inj h
      simpa using hp
    · rcases Option.map_eq_some'.mp h with ⟨j, hj, rfl⟩
      simpa using findSub_some_isPrefixOf t m j hj

theorem findSub_some_minimal :
    ∀ (n m : List Char) (i : Nat), findSub n m = some i →
      ∀ j, j < i → m.isPrefixOf (n.drop j) = false
  | [], m, i, h, j, hj => by
    rw [findSub] at h
    split at h
    · obtain rfl : (0 : Nat) = i := Option.some.inj h
      omega
    · exact absurd h (by simp)
  | c :: t, m, i, h, j, hj => by
    rw [findSub] at h
    split at h
    · obtain rfl : (0 : Nat) = i := Option.some.inj h
      omega
    · rename_i hp
      rcases Option.map_eq_some'.mp h with ⟨i', hi', rfl⟩
      cases j with
      | zero => simpa using Bool.eq_false_iff.mpr hp
      | succ j' => simpa using findSub_some_minimal t m i' hi' j' (by omega)

theorem findSub_eq_some_of :
    ∀ (n m : List Char) (i : Nat), m.isPrefixOf (n.drop i) = true →
      (∀ j, j < i → m.isPrefixOf (n.drop j) = false) → findSub n m = some i
  | [], m, i, hocc, hmin => by
    have h0 : m.isPrefixOf (([] : List Char).drop 0) = true := by simpa using hocc
    have hi : i = 0 := by
      by_contra hne
      have hfalse := hmin 0 (Nat.pos_of_ne_zero hne)
      rw [List.drop_nil] at h0 hfalse
      rw [h0] at hfalse
      exact Bool.noConfusion hfalse
    subst hi
    rw [findSub, if_pos (by simpa using hocc)]
  | c :: t, m, i, hocc, hmin => by
    rw [findSub]
    cases i with
    | zero => rw [if_pos (by simpa using hocc)]
    | succ i' =>
      have hp : m.isPrefixOf (c :: t) = false := by simpa using hmin 0 (Nat.succ_pos _)
      rw [if_neg (by simp [hp])]
      rw [findSub_eq_some_of t m i' (by simpa using hocc)
        (fun j hj => by simpa using hmin (j + 1) (by omega))]
      rfl

theorem findSub_le_length :
    ∀ (n m : List Char) (i : Nat), findSub n m = some i → i ≤ n.length
  | [], m, i, h => by
    rw [findSub] at h
    split at h
    · obtain rfl : (0 : Nat) = i := Option.some.inj h
      simp
    · exact absurd h (by simp)
  | c :: t, m, i, h => by
    rw [findSub] at h
    split at h
    · obtain rfl : (0 : Nat) = i := Option.some.inj h
      simp
    · rcases Option.map_eq_some'.mp h with ⟨i', hi', rfl⟩
      have := findSub_le_length t m i' hi'
      simp only [List.length_cons]
      omega

theorem findSub_eq_none_of_containsSub_false (m n : List Char)
    (hm : containsSub m n = false) : findSub n m = none := by
  cases hf : findSub n m with
  | none => rfl
  | some i =>
    exfalso
    have hocc := findSub_some_isPrefixOf n m i hf
    have hle := findSub_le_length n m i hf
    have := List.any_eq_false.mp hm i (List.mem_range.mpr (by omega))
    rw [hocc] at this
    exact this rfl

theorem firstMarkerSuffix_of_no_occurrence :
    ∀ (ms : List String) (n : List Char),
      (∀ m ∈ ms, findSub n m.data = none) → firstMarkerSuffix ms n = none
  | [], n, _ => rfl
  | m :: ms, n, h => by
    rw [firstMarkerSuffix, h m (List.mem_cons_self _ _)]
    exact firstMarkerSuffix_of_no_occurrence ms n
      (fun m' hm' => h m' (List.mem_cons_of_mem _ hm'))

theorem firstMarkerSuffix_append_skip :
    ∀ (ms₁ : List String) (m : String) (ms₂ : List String) (n : List Char),
      (∀ m' ∈ ms₁, findSub n m'.data = none) →
      firstMarkerSuffix (ms₁ ++ m :: ms₂) n =
        (match findSub n m.data with
         | some i => some ⟨n.drop (i + m.data.length)⟩
         | none => firstMarkerSuffix ms₂ n)
  | [], m, ms₂, n, _ => by rw [List.nil_append, firstMarkerSuffix]
  | m' :: ms₁, m, ms₂, n, h => by
    rw [List.cons_append, firstMarkerSuffix, h m' (List.mem_cons_self _ _)]
    exact firstMarkerSuffix_append_skip ms₁ m ms₂ n
      (fun x hx => h x (List.mem_cons_of_mem _ hx))

/-! ### Claim C3 -/

/-- Counterexample to C3 as stated: on a path containing the Kotlin marker
at position 0 and the Java marker further right, the code returns the
suffix after the *Java* marker (first in tuple order), not after the
leftmost occurrence. -/
theorem changed_path_not_leftmost :
    changed_path_to_jacoco_key "src/main/kotlin/x/src/main/java/y/Z.java" =
      some "y/Z.java" ∧
    leftmostMarkerKeySpec "src/main/kotlin/x/src/main/java/y/Z.java" =
      some "x/src/main/java/y/Z.java" ∧
    ("y/Z.java" : String) ≠ "x/src/main/java/y/Z.java" := by
  refine ⟨by decide, by decide, by decide⟩

/-- Claim C3 (amended): the code tries the four markers in the fixed tuple
order `src/main/java/`, `src/main/kotlin/`, `src/test/java/`,
`src/test/kotlin/` and returns the suffix after the first (leftmost)
occurrence of the first marker in that order that occurs anywhere in the
normalized path — the tuple order takes priority over the position; if no
marker occurs in the normalized path (or the normalized path is empty),
the path is unmappable. -/
theorem changed_path_marker_semantics (path : String) :
    ((∀ m ∈ markers, containsSub m.data (normalizedPath path) = false) →
      changed_path_to_jacoco_key path = none) ∧
    (∀ (ms₁ : List String) (m : String) (ms₂ : List String) (i : Nat),
      markers = ms₁ ++ m :: ms₂ →
      (∀ m' ∈ ms₁, containsSub m'.data (normalizedPath path) = false) →
      m.data.isPrefixOf ((normalizedPath path).drop i) = true →
      (∀ j, j < i → m.data.isPrefixOf ((normalizedPath path).drop j) = false) →
      changed_path_to_jacoco_key path =
        some ⟨(normalizedPath path).drop (i + m.data.length)⟩) := by
  constructor
  · intro hno
    unfold changed_path_to_jacoco_key
    by_cases hn : normalizedPath path = []
    · rw [if_pos hn]
    · rw [if_neg hn]
      exact firstMarkerSuffix_of_no_occurrence markers _
        (fun m hm => findSub_eq_none_of_containsSub_false _ _ (hno m hm))
  · intro ms₁ m ms₂ i hmk hskip hocc hmin
    have hfs : findSub (normalizedPath path) m.data = some i :=
      findSub_eq_some_of _ _ _ hocc hmin
    have hmmem : m ∈ markers := by
      rw [hmk]
      exact List.mem_append_right _ (List.mem_cons_self _ _)
    have hmne : m.data ≠ [] := by
      have : m = "src/main/java/" ∨ m = "src/main/kotlin/" ∨
          m = "src/test/java/" ∨ m = "src/test/kotlin/" := by
        simpa [markers] using hmmem
      rcases this with rfl | rfl | rfl | rfl <;> decide
    have hne : normalizedPath path ≠ [] := by
      intro h0
      rw [h0, List.drop_nil] at hocc
      cases hd : m.data with
      | nil => exact hmne hd
      | cons a as =>
        rw [hd] at hocc
        exact Bool.noConfusion hocc
    unfold changed_path_to_jacoco_key
    rw [if_neg hne, hmk,
      firstMarkerSuffix_append_skip ms₁ m ms₂ _
        (fun m' hm' => findSub_eq_none_of_containsSub_false _ _ (hskip m' hm')),
      hfs]

/-- Witness for the amended C3: the Kotlin marker is the first in tuple
order that occurs; its leftmost occurrence is at index 2. -/
theorem changed_path_marker_semantics_witness :
    changed_path_to_jacoco_key "a/src/main/kotlin/x/F.kt" = some "x/F.kt" := by
  have h := (changed_path_marker_semantics "a/src/main/kotlin/x/F.kt").2
    ["src/main/java/"] "src/main/kotlin/" ["src/test/java/", "src/test/kotlin/"] 2
    (by decide) (by decide) (by decide) (by decide)
  exact h.trans (by decide)

/-! ### Claim C4 -/

theorem rstripW_cons_neg (p : Char → Bool) (c : Char) (t : List Char) (hc : p c = false) :
    rstripW p (c :: t) = c :: rstripW p t := by
  unfold rstripW
  rw [List.reverse_cons, List.dropWhile_append]
  by_cases he : (t.reverse.dropWhile p).isEmpty
  · have h0 : t.reverse.dropWhile p = [] := by simpa [List.isEmpty_iff] using he
    simp [he, h0, hc]
  · simp [he, hc]

theorem rstripW_cons_pos (p : Char → Bool) (c : Char) (t : List Char) (hc : p c = true) :
    rstripW p (c :: t) = if rstripW p t = [] then [] else c :: rstripW p t := by
  unfold rstripW
  rw [List.reverse_cons, List.dropWhile_append]
  by_cases he : (t.reverse.dropWhile p).isEmpty
  · have h0 : t.reverse.dropWhile p = [] := by simpa [List.isEmpty_iff] using he
    simp [he, h0, hc]
  · have h0 : ¬ (t.reverse.dropWhile p = []) := by simpa [List.isEmpty_iff] using he
    simp [he, hc, h0]

theorem rstripW_dropWhile_comm (p : Char → Bool) :
    ∀ l : List Char, rstripW p (l.dropWhile p) = (rstripW p l).dropWhile p
  | [] => rfl
  | c :: t => by
    by_cases hc : p c = true
    · rw [List.dropWhile_cons_of_pos hc, rstripW_cons_pos p c t hc]
      by_cases h0 : rstripW p t = []
      · rw [if_pos h0, rstripW_dropWhile_comm p t, h0]
      · rw [if_neg h0, List.dropWhile_cons_of_pos hc]
        exact rstripW_dropWhile_comm p t
    · have hc' : p c = false := by simpa using hc
      rw [List.dropWhile_cons_of_neg (by simp [hc']), rstripW_cons_neg p c t hc',
        List.dropWhile_cons_of_neg (by simp [hc'])]

theorem ds_not_ws {c : Char} (h : isDotSlash c = true) : isPyWs c = false := by
  have : c = '.' ∨ c = '/' := by simpa [isDotSlash] using h
  rcases this with rfl | rfl <;> decide

theorem dropWhile_ds_decomp :
    ∀ r : List Char, ∃ j : List Char,
      r.dropWhile isDotSlash = j ++ ((r.dropWhile isPyWs).dropWhile isDotSlash) ∧
      ∀ c ∈ j, isPyWs c = true ∨ isDotSlash c = true
  | [] => ⟨[], rfl, by simp⟩
  | c :: t => by
    by_cases hds : isDotSlash c = true
    · rw [List.dropWhile_cons_of_pos hds,
        List.dropWhile_cons_of_neg (by simp [ds_not_ws hds]),
        List.dropWhile_cons_of_pos hds]
      exact ⟨[], rfl, by simp⟩
    · by_cases hws : isPyWs c = true
      · rw [List.dropWhile_cons_of_neg (by simp [hds]), List.dropWhile_cons_of_pos hws]
        obtain ⟨j', hj', hjunk'⟩ := dropWhile_ds_decomp t
        refine ⟨c :: (t.takeWhile isDotSlash ++ j'), ?_, ?_⟩
        · rw [List.cons_append, List.append_assoc, ← hj', List.takeWhile_append_dropWhile]
        · intro x hx
          rcases List.mem_cons.mp hx with rfl | hx'
          · exact Or.inl hws
          · rcases List.mem_append.mp hx' with hx'' | hx''
            · exact Or.inr (List.mem_takeWhile_imp hx'')
            · exact hjunk' x hx''
      · have hws' : isPyWs c = false := by simpa using hws
        rw [List.dropWhile_cons_of_neg (by simp [hds]),
          List.dropWhile_cons_of_neg (by simp [hws']),
          List.dropWhile_cons_of_neg (by simp [hds])]
        exact ⟨[], rfl, by simp⟩

theorem junk_ne_s {c : Char} (hc : isPyWs c = true ∨ isDotSlash c = true) : c ≠ 's' := by
  intro h
  subst h
  revert hc
  decide

theorem markers_head_s : ∀ m ∈ markers, ∃ tl, m.data = 's' :: tl := by
  intro m hm
  have hm' : m = "src/main/java/" ∨ m = "src/main/kotlin/" ∨
      m = "src/test/java/" ∨ m = "src/test/kotlin/" := by
    simpa [markers] using hm
  rcases hm' with rfl | rfl | rfl | rfl <;> exact ⟨_, rfl⟩

theorem firstMarkerSuffix_cons_junk :
    ∀ (ms : List String), (∀ m ∈ ms, ∃ tl, m.data = 's' :: tl) →
      ∀ (c : Char), c ≠ 's' → ∀ (n : List Char),
        firstMarkerSuffix ms (c :: n) = firstMarkerSuffix ms n
  | [], _, c, hc, n => rfl
  | m :: ms, hms, c, hc, n => by
    obtain ⟨tl, htl⟩ := hms m (List.mem_cons_self _ _)
    have hsc : ('s' == c) = false := beq_eq_false_iff_ne.mpr (Ne.symm hc)
    have hp : m.data.isPrefixOf (c :: n) = false := by
      rw [htl]
      simp [List.isPrefixOf, hsc]
    rw [firstMarkerSuffix, firstMarkerSuffix, findSub, if_neg (by simp [hp])]
    cases hf : findSub n m.data with
    | some i =>
      simp only [hf, Option.map_some']
      have harith : i + 1 + m.data.length = (i + m.data.length) + 1 := by omega
      rw [harith, List.drop_succ_cons]
    | none =>
      simp only [hf, Option.map_none']
      exact firstMarkerSuffix_cons_junk ms
        (fun x hx => hms x (List.mem_cons_of_mem _ hx)) c hc n

theorem firstMarkerSuffix_junk_append :
    ∀ (j : List Char), (∀ c ∈ j, isPyWs c = true ∨ isDotSlash c = true) →
      ∀ B : List Char, firstMarkerSuffix markers (j ++ B) = firstMarkerSuffix markers B
  | [], _, B => rfl
  | c :: j, hj, B => by
    rw [List.cons_append,
      firstMarkerSuffix_cons_junk markers markers_head_s c
        (junk_ne_s (hj c (List.mem_cons_self _ _))) (j ++ B)]
    exact firstMarkerSuffix_junk_append j
      (fun x hx => hj x (List.mem_cons_of_mem _ hx)) B

/-- Counterexample to C4 as stated: the key of `src/main/java/A.java` is
`A.java`, but re-mapping `./A.java` yields `None` (the marker was consumed
by the first mapping), not the same key again. -/
theorem changed_path_key_remap_counterexample :
    changed_path_to_jacoco_key "src/main/java/A.java" = some "A.java" ∧
    changed_path_to_jacoco_key ("./" ++ "A.java") = none ∧
    (none : Option String) ≠ some "A.java" := by
  refine ⟨by decide, by decide, by decide⟩

/-- Claim C4 (amended): what is stable under re-normalization is the raw
path, not the returned key: prefixing the original path with `./` never
changes the mapper's result (`changed_path_to_jacoco_key ("./" ++ p) =
changed_path_to_jacoco_key p` for every path `p`), whereas re-mapping the
returned key itself generally yields `None` because the marker was
consumed. -/
theorem changed_path_key_dotSlash_invariant (p : String) :
    changed_path_to_jacoco_key ("./" ++ p) = changed_path_to_jacoco_key p := by
  have hdata : ("./" ++ p).data = '.' :: '/' :: p.data := by
    rw [String.data_append]
    rfl
  have hnorm1 : normalizedPath ("./" ++ p) =
      (rstripW isPyWs p.data).dropWhile isDotSlash := by
    unfold normalizedPath pyStripL
    rw [hdata, List.dropWhile_cons_of_neg (by decide),
      rstripW_cons_neg isPyWs '.' _ (by decide),
      rstripW_cons_neg isPyWs '/' _ (by decide),
      List.dropWhile_cons_of_pos (by decide),
      List.dropWhile_cons_of_pos (by decide)]
  have hnorm2 : normalizedPath p =
      ((rstripW isPyWs p.data).dropWhile isPyWs).dropWhile isDotSlash := by
    unfold normalizedPath pyStripL
    rw [rstripW_dropWhile_comm isPyWs p.data]
  obtain ⟨j, hj, hjunk⟩ := dropWhile_ds_decomp (rstripW isPyWs p.data)
  unfold changed_path_to_jacoco_key
  rw [hnorm1, hnorm2, hj]
  by_cases hBnil : ((rstripW isPyWs p.data).dropWhile isPyWs).dropWhile isDotSlash = []
  · rw [hBnil, List.append_nil, if_pos rfl]
    by_cases hjnil : j = []
    · rw [hjnil, if_pos rfl]
    · rw [if_neg hjnil]
      have hfms := firstMarkerSuffix_junk_append j hjunk []
      rw [List.append_nil] at hfms
      rw [hfms]
      decide
  · have hA : j ++ ((rstripW isPyWs p.data).dropWhile isPyWs).dropWhile isDotSlash ≠ [] := by
      intro h
      rcases List.append_eq_nil.mp h with ⟨-, h2⟩
      exact hBnil h2
    rw [if_neg hA, if_neg hBnil]
    exact firstMarkerSuffix_junk_append j hjunk _
